import Mathlib

/-!
Shallow embedding of the ScriptlyX transliteration core: the static
Latin/Cyrillic mapping tables, the lookup-index builder, the
case-preserving greedy transducer, the converter registry and the
script classifier, together with theorems settling the specification
claims about them.

Strings are modelled as `List Char` (every character involved lies in
the Basic Multilingual Plane, so JavaScript UTF-16 lengths coincide
with character counts).  JavaScript `Map` objects are modelled as
association lists in insertion order, with `set` overwriting the value
of an existing key in place.  The fallible index lookup (`map.get(k)!`)
is modelled with `Option`; the scanning loop carries explicit fuel
(`text.length` at the top-level call) and returns `none` if fuel runs
out or a matched key is missing from the index.
-/

namespace ScriptlyX

/-- JavaScript `Map.set`: overwrite the first (and only) occurrence of the
key in place, otherwise append the pair at the end. -/
def mapSet {α β : Type} [DecidableEq α] : List (α × β) → α → β → List (α × β)
  | [], k, v => [(k, v)]
  | p :: ps, k, v => if p.1 = k then (k, v) :: ps else p :: mapSet ps k v

/-- JavaScript `Map.get`: value of the first entry with the given key. -/
def mapGet {α β : Type} [DecidableEq α] (m : List (α × β)) (k : α) : Option β :=
  (m.find? (fun p => decide (p.1 = k))).map Prod.snd

/-- JavaScript `Map.has`. -/
def mapHas {α β : Type} [DecidableEq α] (m : List (α × β)) (k : α) : Bool :=
  (m.find? (fun p => decide (p.1 = k))).isSome

/-- Simple case mapping to lower case, as JavaScript `toLowerCase` acts on
the Basic Latin and Cyrillic characters used by the mapping tables
(A-Z, the core Cyrillic block, and the extended-Cyrillic pairs). -/
def jsLower (c : Char) : Char :=
  if 'A' ≤ c ∧ c ≤ 'Z' then Char.ofNat (c.toNat + 32)
  else if 0x410 ≤ c.toNat ∧ c.toNat ≤ 0x42F then Char.ofNat (c.toNat + 32)
  else if 0x400 ≤ c.toNat ∧ c.toNat ≤ 0x40F then Char.ofNat (c.toNat + 80)
  else if (0x460 ≤ c.toNat ∧ c.toNat ≤ 0x481 ∨ 0x48A ≤ c.toNat ∧ c.toNat ≤ 0x4BF)
      ∧ c.toNat % 2 = 0 then Char.ofNat (c.toNat + 1)
  else c

/-- Simple case mapping to upper case, as JavaScript `toUpperCase` acts on
the characters used by the mapping tables. -/
def jsUpper (c : Char) : Char :=
  if 'a' ≤ c ∧ c ≤ 'z' then Char.ofNat (c.toNat - 32)
  else if 0x430 ≤ c.toNat ∧ c.toNat ≤ 0x44F then Char.ofNat (c.toNat - 32)
  else if 0x450 ≤ c.toNat ∧ c.toNat ≤ 0x45F then Char.ofNat (c.toNat - 80)
  else if (0x460 ≤ c.toNat ∧ c.toNat ≤ 0x481 ∨ 0x48A ≤ c.toNat ∧ c.toNat ≤ 0x4BF)
      ∧ c.toNat % 2 = 1 then Char.ofNat (c.toNat - 1)
  else c

/-- String `toLowerCase`, character-wise. -/
def jsLowerStr (s : List Char) : List Char := s.map jsLower

/-- String `toUpperCase`, character-wise. -/
def jsUpperStr (s : List Char) : List Char := s.map jsUpper

/-- Source `isUpperCase`: the character differs from its lower-case form
and equals its upper-case form. -/
def isUpperCase (c : Char) : Bool :=
  decide (c ≠ jsLower c) && decide (c = jsUpper c)

/-- Source `matchCase`: apply the case shape of `source` to `target`.
Empty source or empty target is returned as the target; an all-uppercase
source uppercases the whole target; a source with an uppercase first
character uppercases only the first character of the target. -/
def matchCase : List Char → List Char → List Char
  | [], target => target
  | _ :: _, [] => []
  | s :: ss, t :: ts =>
    if jsUpperStr (s :: ss) = s :: ss ∧ jsLowerStr (s :: ss) ≠ s :: ss then
      jsUpperStr (t :: ts)
    else if isUpperCase s then jsUpper t :: ts
    else t :: ts

/-- Stable insertion of a key into a list sorted by descending length:
the key goes after every existing key of length greater than or equal to
its own (models the stable JavaScript sort by `b.length - a.length`). -/
def insertDescLen (x : List Char) : List (List Char) → List (List Char)
  | [] => [x]
  | y :: ys => if y.length < x.length then x :: y :: ys else y :: insertDescLen x ys

/-- Source `getSortedKeys`: the keys of a lookup map, sorted by descending
length with a stable sort (insertion order is preserved among keys of
equal length). -/
def getSortedKeys (m : List (List Char × List Char)) : List (List Char) :=
  (m.map Prod.fst).foldl (fun acc x => insertDescLen x acc) []

/-- The greedy longest-match scanning loop shared by the four conversion
functions.  At each position the sorted keys are tried in order; the
first key whose length-sized chunk matches case-insensitively is
replaced (with `matchCase`) and the cursor advances by the key length;
otherwise one character passes through unchanged.  `fuel` bounds the
number of loop iterations; the top-level calls pass the text length. -/
def greedyConvert (table : List (List Char × List Char)) (keys : List (List Char)) :
    Nat → List Char → Option (List Char)
  | _, [] => some []
  | 0, _ :: _ => none
  | fuel + 1, c :: rest =>
    match keys.find? (fun k => decide (jsLowerStr (List.take k.length (c :: rest)) = k)) with
    | some key =>
      match mapGet table key with
      | some replacement =>
        (greedyConvert table keys fuel (List.drop key.length (c :: rest))).map
          (fun out => matchCase (List.take key.length (c :: rest)) replacement ++ out)
      | none => none
    | none => (greedyConvert table keys fuel rest).map (fun out => c :: out)

/-- One `(sourceToken, targetToken)` entry of a mapping table. -/
structure CharacterMapping where
  latin : String
  cyrillic : String

namespace Generic

/-- Source `LATIN_CYRILLIC_MAP` (generic Russian-style scheme). -/
def LATIN_CYRILLIC_MAP : List CharacterMapping := [
  ⟨"shch", "щ"⟩,
  ⟨"yo", "ё"⟩, ⟨"zh", "ж"⟩, ⟨"kh", "х"⟩, ⟨"ts", "ц"⟩, ⟨"ch", "ч"⟩,
  ⟨"sh", "ш"⟩, ⟨"yu", "ю"⟩, ⟨"ya", "я"⟩, ⟨"ye", "э"⟩,
  ⟨"y'", "ы"⟩, ⟨"\"", "ъ"⟩, ⟨"'", "ь"⟩,
  ⟨"a", "а"⟩, ⟨"b", "б"⟩, ⟨"v", "в"⟩, ⟨"g", "г"⟩, ⟨"d", "д"⟩,
  ⟨"e", "е"⟩, ⟨"z", "з"⟩, ⟨"i", "и"⟩, ⟨"y", "й"⟩, ⟨"k", "к"⟩,
  ⟨"l", "л"⟩, ⟨"m", "м"⟩, ⟨"n", "н"⟩, ⟨"o", "о"⟩, ⟨"p", "п"⟩,
  ⟨"r", "р"⟩, ⟨"s", "с"⟩, ⟨"t", "т"⟩, ⟨"u", "у"⟩, ⟨"f", "ф"⟩,
  ⟨"h", "х"⟩, ⟨"c", "ц"⟩, ⟨"w", "в"⟩, ⟨"x", "кс"⟩, ⟨"q", "к"⟩]

/-- Source `buildLookupMaps` for the generic scheme: every entry is `set`
into both directions unconditionally. -/
def buildLookupMaps :
    List (List Char × List Char) × List (List Char × List Char) :=
  LATIN_CYRILLIC_MAP.foldl
    (fun acc e =>
      (mapSet acc.1 e.latin.data e.cyrillic.data,
       mapSet acc.2 e.cyrillic.data e.latin.data))
    ([], [])

/-- The generic Latin → Cyrillic lookup map. -/
def latinToCyrillic : List (List Char × List Char) := buildLookupMaps.1

/-- The generic Cyrillic → Latin lookup map. -/
def cyrillicToLatin : List (List Char × List Char) := buildLookupMaps.2

/-- Sorted (longest-first) keys of the generic Latin → Cyrillic map. -/
def sortedLatinKeys : List (List Char) := getSortedKeys latinToCyrillic

/-- Sorted (longest-first) keys of the generic Cyrillic → Latin map. -/
def sortedCyrillicKeys : List (List Char) := getSortedKeys cyrillicToLatin

/-- Source `latinToCyrillicConvert`. -/
def latinToCyrillicConvert (text : String) : Option String :=
  (greedyConvert latinToCyrillic sortedLatinKeys text.data.length text.data).map
    List.asString

/-- Source `cyrillicToLatinConvert`. -/
def cyrillicToLatinConvert (text : String) : Option String :=
  (greedyConvert cyrillicToLatin sortedCyrillicKeys text.data.length text.data).map
    List.asString

end Generic

namespace Uzbek

/-- Source `UZBEK_LATIN_CYRILLIC_MAP`. -/
def UZBEK_LATIN_CYRILLIC_MAP : List CharacterMapping := [
  ⟨"ch", "ч"⟩, ⟨"sh", "ш"⟩, ⟨"g'", "ғ"⟩, ⟨"o'", "ў"⟩, ⟨"ng", "нг"⟩,
  ⟨"'", "ъ"⟩,
  ⟨"a", "а"⟩, ⟨"b", "б"⟩, ⟨"d", "д"⟩, ⟨"e", "е"⟩, ⟨"f", "ф"⟩,
  ⟨"g", "г"⟩, ⟨"h", "ҳ"⟩, ⟨"i", "и"⟩, ⟨"j", "ж"⟩, ⟨"k", "к"⟩,
  ⟨"l", "л"⟩, ⟨"m", "м"⟩, ⟨"n", "н"⟩, ⟨"o", "о"⟩, ⟨"p", "п"⟩,
  ⟨"q", "қ"⟩, ⟨"r", "р"⟩, ⟨"s", "с"⟩, ⟨"t", "т"⟩, ⟨"u", "у"⟩,
  ⟨"v", "в"⟩, ⟨"x", "х"⟩, ⟨"y", "й"⟩, ⟨"z", "з"⟩]

/-- Source `UZBEK_CYRILLIC_TO_LATIN_EXTRAS`. -/
def UZBEK_CYRILLIC_TO_LATIN_EXTRAS : List CharacterMapping := [
  ⟨"ye", "е"⟩, ⟨"yo", "ё"⟩, ⟨"yu", "ю"⟩, ⟨"ya", "я"⟩,
  ⟨"ts", "ц"⟩, ⟨"shch", "щ"⟩, ⟨"", "ь"⟩, ⟨"", "ъ"⟩]

/-- Source `buildLookupMaps` for the Uzbek scheme: the main entries are
`set` into both directions unconditionally; an extras entry is inserted
into the reverse direction only if its key is not already present. -/
def buildLookupMaps :
    List (List Char × List Char) × List (List Char × List Char) :=
  let main := UZBEK_LATIN_CYRILLIC_MAP.foldl
    (fun acc e =>
      (mapSet acc.1 e.latin.data e.cyrillic.data,
       mapSet acc.2 e.cyrillic.data e.latin.data))
    ([], [])
  let withExtras := UZBEK_CYRILLIC_TO_LATIN_EXTRAS.foldl
    (fun c2l e =>
      if mapHas c2l e.cyrillic.data then c2l
      else mapSet c2l e.cyrillic.data e.latin.data)
    main.2
  (main.1, withExtras)

/-- The Uzbek Latin → Cyrillic lookup map. -/
def latinToCyrillic : List (List Char × List Char) := buildLookupMaps.1

/-- The Uzbek Cyrillic → Latin lookup map (with extras). -/
def cyrillicToLatin : List (List Char × List Char) := buildLookupMaps.2

/-- Sorted (longest-first) keys of the Uzbek Latin → Cyrillic map. -/
def sortedLatinKeys : List (List Char) := getSortedKeys latinToCyrillic

/-- Sorted (longest-first) keys of the Uzbek Cyrillic → Latin map. -/
def sortedCyrillicKeys : List (List Char) := getSortedKeys cyrillicToLatin

/-- Source `uzbekLatinToCyrillic`. -/
def uzbekLatinToCyrillic (text : String) : Option String :=
  (greedyConvert latinToCyrillic sortedLatinKeys text.data.length text.data).map
    List.asString

/-- Source `uzbekCyrillicToLatin`. -/
def uzbekCyrillicToLatin (text : String) : Option String :=
  (greedyConvert cyrillicToLatin sortedCyrillicKeys text.data.length text.data).map
    List.asString

end Uzbek

/-- Source `Converter` interface. -/
structure Converter where
  id : String
  name : String
  convert : String → Option String

/-- Source `registerConverter`: `converters.set(converter.id, converter)`;
re-registering an id overwrites the previous converter. -/
def registerConverter (m : List (String × Converter)) (c : Converter) :
    List (String × Converter) :=
  mapSet m c.id c

/-- The converter registry after the four built-in `registerConverter`
calls at the bottom of the conversion engine, in source order. -/
def converters : List (String × Converter) :=
  registerConverter
    (registerConverter
      (registerConverter
        (registerConverter []
          ⟨"latin-to-cyrillic", "Latin → Cyrillic (Russian)",
            Generic.latinToCyrillicConvert⟩)
        ⟨"cyrillic-to-latin", "Cyrillic → Latin (Russian)",
          Generic.cyrillicToLatinConvert⟩)
      ⟨"uz-latn-to-uz-cyrl", "Uzbek Latin → Cyrillic",
        Uzbek.uzbekLatinToCyrillic⟩)
    ⟨"uz-cyrl-to-uz-latn", "Uzbek Cyrillic → Latin",
      Uzbek.uzbekCyrillicToLatin⟩

/-- Source `getConverter`. -/
def getConverter (id : String) : Option Converter :=
  mapGet converters id

/-- The error thrown by `convert` for an unregistered conversion id. -/
inductive ConvError where
  | unknownConverter : String → ConvError
deriving DecidableEq

/-- Source `convert`: throws `Unknown converter` for an unregistered id,
otherwise applies the registered converter to the text. -/
def convert (text : String) (type : String) : Except ConvError (Option String) :=
  match mapGet converters type with
  | none => Except.error (ConvError.unknownConverter type)
  | some c => Except.ok (c.convert text)

/-- Source regex `LATIN_RANGE` as a character test. -/
def LATIN_RANGE (c : Char) : Bool :=
  (decide ('A' ≤ c) && decide (c ≤ 'Z')) || (decide ('a' ≤ c) && decide (c ≤ 'z'))

/-- Source regex `CYRILLIC_RANGE` as a character test. -/
def CYRILLIC_RANGE (c : Char) : Bool :=
  decide (0x400 ≤ c.toNat) && decide (c.toNat ≤ 0x4FF)

/-- Source `ScriptType`. -/
inductive ScriptType where
  | latin | cyrillic | mixed | unknown
deriving DecidableEq

/-- Source `ScriptAnalysis`; the percentage fields, JavaScript numbers in
the source, are modelled as rationals. -/
structure ScriptAnalysis where
  type : ScriptType
  latinCount : Nat
  cyrillicCount : Nat
  totalLetters : Nat
  latinPercentage : ℚ
  cyrillicPercentage : ℚ
deriving DecidableEq

/-- Source `analyzeScript`: count Latin-range and (otherwise)
Cyrillic-range characters, then classify with the 90% thresholds. -/
def analyzeScript (text : String) : ScriptAnalysis :=
  let counts := text.data.foldl
    (fun (acc : Nat × Nat) c =>
      if LATIN_RANGE c then (acc.1 + 1, acc.2)
      else if CYRILLIC_RANGE c then (acc.1, acc.2 + 1)
      else acc)
    (0, 0)
  let latinCount := counts.1
  let cyrillicCount := counts.2
  let totalLetters := latinCount + cyrillicCount
  if totalLetters = 0 then
    ⟨ScriptType.unknown, 0, 0, 0, 0, 0⟩
  else
    let latinPercentage : ℚ := ((latinCount : ℚ) / (totalLetters : ℚ)) * 100
    let cyrillicPercentage : ℚ := ((cyrillicCount : ℚ) / (totalLetters : ℚ)) * 100
    let type :=
      if 90 ≤ latinPercentage then ScriptType.latin
      else if 90 ≤ cyrillicPercentage then ScriptType.cyrillic
      else if 0 < totalLetters then ScriptType.mixed
      else ScriptType.unknown
    ⟨type, latinCount, cyrillicCount, totalLetters, latinPercentage, cyrillicPercentage⟩

/-- A `set` call always leaves the key bound to the new value: the
last write to a key wins in a JavaScript `Map`. -/
theorem mapGet_mapSet_self {α β : Type} [DecidableEq α] (m : List (α × β)) (k : α) (v : β) :
    mapGet (mapSet m k v) k = some v := by
  induction m with
  | nil => simp [mapSet, mapGet, List.find?]
  | cons p ps ih =>
    by_cases h : p.1 = k
    · simp [mapSet, h, mapGet, List.find?]
    · simpa [mapSet, h, mapGet, List.find?] using ih

/-- In a list sorted by descending length, the first element satisfying a
predicate has maximal length among all elements satisfying it. -/
theorem find?_maximal_of_pairwise {l : List (List Char)} {p : List Char → Bool}
    {k : List Char} (hs : l.Pairwise (fun a b => b.length ≤ a.length))
    (hf : l.find? p = some k) :
    ∀ k' ∈ l, p k' = true → k'.length ≤ k.length := by
  induction l with
  | nil => simp at hf
  | cons a t ih =>
    cases hpa : p a with
    | true =>
      rw [List.find?_cons_of_pos _ hpa] at hf
      obtain rfl : a = k := by injection hf
      intro k' hk' hpk'
      rcases List.mem_cons.mp hk' with rfl | hk'
      · exact le_refl _
      · exact (List.pairwise_cons.mp hs).1 k' hk'
    | false =>
      rw [List.find?_cons_of_neg _ (by simp [hpa])] at hf
      intro k' hk' hpk'
      rcases List.mem_cons.mp hk' with rfl | hk'
      · rw [hpa] at hpk'; cases hpk'
      · exact ih (List.pairwise_cons.mp hs).2 hf k' hk' hpk'

/-- If every key of the index is non-empty and present in the lookup map,
the scanning loop completes within `text.length` iterations: fuel at
least the text length always yields a result. -/
theorem greedyConvert_isSome (table : List (List Char × List Char))
    (keys : List (List Char))
    (h : ∀ k ∈ keys, k ≠ [] ∧ (mapGet table k).isSome = true) :
    ∀ (fuel : Nat) (text : List Char), text.length ≤ fuel →
      (greedyConvert table keys fuel text).isSome = true := by
  intro fuel
  induction fuel with
  | zero =>
    intro text hlen
    cases text with
    | nil => simp [greedyConvert]
    | cons c rest => simp at hlen
  | succ n ih =>
    intro text hlen
    cases text with
    | nil => simp [greedyConvert]
    | cons c rest =>
      rw [greedyConvert]
      cases hf : keys.find?
          (fun k => decide (jsLowerStr (List.take k.length (c :: rest)) = k)) with
      | none =>
        simp only [hf, Option.isSome_map']
        exact ih rest (by simpa using Nat.le_of_succ_le_succ hlen)
      | some key =>
        obtain ⟨hne, hsome⟩ := h key (List.mem_of_find?_eq_some hf)
        obtain ⟨repl, hr⟩ := Option.isSome_iff_exists.mp hsome
        simp only [hf, hr, Option.isSome_map']
        apply ih
        have hkpos : 0 < key.length := List.length_pos.mpr hne
        simp only [List.length_drop, List.length_cons]
        simp only [List.length_cons] at hlen
        omega

end ScriptlyX

open ScriptlyX

/-- C1: Greedy longest match.  Whenever the key scan at a cursor position
finds a key, that key is a longest key of the generic Latin → Cyrillic
index matching the chunk case-insensitively; in particular on
"shchuka" the first matched key is the length-4 token "shch", and the
conversion returns "щука". -/
theorem c1_greedy_longest_match :
    (∀ (text k : List Char),
        Generic.sortedLatinKeys.find?
            (fun k0 => decide (jsLowerStr (List.take k0.length text) = k0)) = some k →
          ∀ k' ∈ Generic.sortedLatinKeys,
            jsLowerStr (List.take k'.length text) = k' → k'.length ≤ k.length)
    ∧ Generic.sortedLatinKeys.find?
        (fun k0 => decide (jsLowerStr (List.take k0.length "shchuka".data) = k0))
        = some "shch".data
    ∧ Generic.latinToCyrillicConvert "shchuka" = some "щука" := by
  refine ⟨?_, by decide, by decide⟩
  intro text k hf k' hk' hmatch
  exact find?_maximal_of_pairwise (by decide) hf k' hk' (decide_eq_true hmatch)

/-- Witness for C1 at the concrete input "shchuka": the matched key
"shch" is at least as long as the also-matching key "sh", and the
conversion result is "щука". -/
theorem c1_greedy_longest_match_witness :
    "sh".data.length ≤ "shch".data.length
    ∧ Generic.latinToCyrillicConvert "shchuka" = some "щука" :=
  ⟨c1_greedy_longest_match.1 "shchuka".data "shch".data
      c1_greedy_longest_match.2.1 "sh".data (by decide) (by decide),
   c1_greedy_longest_match.2.2⟩

/-- C3 counterexample: the claim says cyrillicToLatinConvert "кс" = "ks";
the code returns "x", because the reverse index contains the
two-character key "кс" (from the forward entry x → кс) which is matched
greedily before the single characters. -/
theorem c3_round_trip_counterexample :
    ¬(Generic.cyrillicToLatinConvert "кс" = some "ks") := by decide

/-- C3 amended: latinToCyrillicConvert "x" = "кс" holds, but
cyrillicToLatinConvert "кс" = "x" (not "ks"), so the round trip on "x"
does close; round-trip lossiness nevertheless holds elsewhere, e.g.
"йо" → "yo" → "ё" ≠ "йо". -/
theorem c3_round_trip_lossiness :
    Generic.latinToCyrillicConvert "x" = some "кс"
    ∧ Generic.cyrillicToLatinConvert "кс" = some "x"
    ∧ Generic.cyrillicToLatinConvert "йо" = some "yo"
    ∧ Generic.latinToCyrillicConvert "yo" = some "ё"
    ∧ ("ё" : String) ≠ "йо" :=
  ⟨by decide, by decide, by decide, by decide, by decide⟩

/-- C4 counterexample: the claim says the first-registered entry wins, so
Cyrillic "х" would reverse-map to "kh"; the code's Map.set overwrites,
so "х" reverse-maps to the later entry "h". -/
theorem c4_first_wins_counterexample :
    ¬(Generic.cyrillicToLatinConvert "х" = some "kh") := by decide

/-- C4 amended: in a direction's main table the last-registered entry
wins (a set call always overwrites), so in the generic Cyrillic → Latin
index х → h, ц → c, в → w, к → q. -/
theorem c4_last_registered_wins :
    (∀ (m : List (List Char × List Char)) (k v : List Char),
        mapGet (mapSet m k v) k = some v)
    ∧ Generic.cyrillicToLatinConvert "х" = some "h"
    ∧ Generic.cyrillicToLatinConvert "ц" = some "c"
    ∧ Generic.cyrillicToLatinConvert "в" = some "w"
    ∧ Generic.cyrillicToLatinConvert "к" = some "q" :=
  ⟨fun m k v => mapGet_mapSet_self m k v, by decide, by decide, by decide, by decide⟩

/-- C5 counterexample: the claim says Cyrillic "е" reverse-maps to "ye";
the code inserts an extras entry only when its key is absent, and the
forward entry e → е already claimed the slot, so "е" maps to "e". -/
theorem c5_extras_counterexample :
    ¬(Uzbek.uzbekCyrillicToLatin "е" = some "ye") := by decide

/-- C5 amended: canonical entries take priority over extras — since the
forward Latin entry e → е claimed the slot, Cyrillic "е" reverse-maps
to "e", not "ye"; extras whose keys are unclaimed (such as ё → yo) are
inserted. -/
theorem c5_canonical_over_extras :
    Uzbek.uzbekCyrillicToLatin "е" = some "e"
    ∧ mapGet Uzbek.cyrillicToLatin "е".data = some "e".data
    ∧ mapGet Uzbek.cyrillicToLatin "ё".data = some "yo".data
    ∧ Uzbek.uzbekCyrillicToLatin "ё" = some "yo" :=
  ⟨by decide, by decide, by decide, by decide⟩

/-- C6: uzbekLatinToCyrillic "salom" = "салом" holds, but on the
documented example "rahmat" the code returns "раҳмат" (the table maps
h → ҳ, U+04B3), not the "рахмат" (with х, U+0445) promised by the
product docs. -/
theorem c6_uzbek_doc_examples :
    Uzbek.uzbekLatinToCyrillic "salom" = some "салом"
    ∧ Uzbek.uzbekLatinToCyrillic "rahmat" = some "раҳмат"
    ∧ ("раҳмат" : String) ≠ "рахмат" :=
  ⟨by decide, by decide, by decide⟩

/-- C2: the case matching rule, applied independently to each matched
chunk: a chunk that differs from its own lower-cased form and equals its
own upper-cased form makes the target fully upper-cased; otherwise a
chunk whose first character is uppercase capitalises only the first
character of the target; otherwise the target is emitted verbatim. -/
theorem c2_case_matching_rule (source target : List Char) :
    (source ≠ jsLowerStr source → source = jsUpperStr source →
      matchCase source target = jsUpperStr target)
    ∧ (¬(source ≠ jsLowerStr source ∧ source = jsUpperStr source) →
        ∀ c cs, source = c :: cs → isUpperCase c = true →
          matchCase source target =
            (match target with | [] => [] | t :: ts => jsUpper t :: ts))
    ∧ (¬(source ≠ jsLowerStr source ∧ source = jsUpperStr source) →
        (∀ c cs, source = c :: cs → isUpperCase c = false) →
          matchCase source target = target) := by
  rcases source with _ | ⟨sc, ss⟩
  · exact ⟨fun hne _ => absurd rfl hne,
      fun _ c cs hcontra _ => List.noConfusion hcontra, fun _ _ => rfl⟩
  · rcases target with _ | ⟨t, ts⟩
    · exact ⟨fun _ _ => rfl, fun _ c cs hc _ => rfl, fun _ _ => rfl⟩
    · refine ⟨?_, ?_, ?_⟩
      · intro hne hup
        rw [matchCase, if_pos ⟨hup.symm, fun h => hne h.symm⟩]
      · intro hnall c cs hc hcup
        obtain ⟨rfl, rfl⟩ : c = sc ∧ cs = ss := by
          injection hc with h1 h2; exact ⟨h1.symm, h2.symm⟩
        rw [matchCase, if_neg, if_pos hcup]
        intro ⟨h1, h2⟩
        exact hnall ⟨fun h => h2 h.symm, h1.symm⟩
      · intro hnall hlow
        have hcl : isUpperCase sc = false := hlow sc ss rfl
        rw [matchCase, if_neg, if_neg]
        · rw [hcl]; simp
        · intro ⟨h1, h2⟩
          exact hnall ⟨fun h => h2 h.symm, h1.symm⟩

/-- Witness for C2 at concrete chunks: "SH" is all-uppercase so the
target "ш" is fully upper-cased; "Sh" is only initial-uppercase so only
the first character of "шч" is upper-cased; "sh" leaves "ш" verbatim. -/
theorem c2_case_matching_rule_witness :
    matchCase "SH".data "ш".data = jsUpperStr "ш".data
    ∧ matchCase "Sh".data "шч".data =
        (match "шч".data with | [] => [] | t :: ts => jsUpper t :: ts)
    ∧ matchCase "sh".data "ш".data = "ш".data :=
  ⟨(c2_case_matching_rule "SH".data "ш".data).1 (by decide) (by decide),
   (c2_case_matching_rule "Sh".data "шч".data).2.1 (by decide) 'S' "h".data rfl (by decide),
   (c2_case_matching_rule "sh".data "ш".data).2.2 (by decide)
     (fun c cs h => by
       obtain ⟨rfl, -⟩ : c = 's' ∧ cs = "h".data := by
         injection h with h1 h2; exact ⟨h1.symm, h2.symm⟩
       decide)⟩

/-- C9: each of the four transliteration functions is total — the scan
always completes within text-length iterations (every key of every
index is non-empty and present in its lookup map, so each loop
iteration advances the cursor and every lookup succeeds), and empty
input yields empty output. -/
theorem c9_totality (s : String) :
    (Generic.latinToCyrillicConvert s).isSome = true
    ∧ (Generic.cyrillicToLatinConvert s).isSome = true
    ∧ (Uzbek.uzbekLatinToCyrillic s).isSome = true
    ∧ (Uzbek.uzbekCyrillicToLatin s).isSome = true
    ∧ Generic.latinToCyrillicConvert "" = some ""
    ∧ Generic.cyrillicToLatinConvert "" = some ""
    ∧ Uzbek.uzbekLatinToCyrillic "" = some ""
    ∧ Uzbek.uzbekCyrillicToLatin "" = some ""
    ∧ Generic.sortedLatinKeys.all (fun k => !k.isEmpty) = true
    ∧ Generic.sortedCyrillicKeys.all (fun k => !k.isEmpty) = true
    ∧ Uzbek.sortedLatinKeys.all (fun k => !k.isEmpty) = true
    ∧ Uzbek.sortedCyrillicKeys.all (fun k => !k.isEmpty) = true := by
  refine ⟨?_, ?_, ?_, ?_, by decide, by decide, by decide, by decide,
    by decide, by decide, by decide, by decide⟩
  · rw [Generic.latinToCyrillicConvert, Option.isSome_map']
    exact greedyConvert_isSome _ _ (by decide) _ _ le_rfl
  · rw [Generic.cyrillicToLatinConvert, Option.isSome_map']
    exact greedyConvert_isSome _ _ (by decide) _ _ le_rfl
  · rw [Uzbek.uzbekLatinToCyrillic, Option.isSome_map']
    exact greedyConvert_isSome _ _ (by decide) _ _ le_rfl
  · rw [Uzbek.uzbekCyrillicToLatin, Option.isSome_map']
    exact greedyConvert_isSome _ _ (by decide) _ _ le_rfl

/-- C7: convert fails with the unknown-converter error exactly when the
conversion id is not one of the four registered ids, a registered id
returns its converter's output, and "not-a-real-id" in particular
fails. -/
theorem c7_unknown_converter (text id : String) :
    (convert text id = Except.error (ConvError.unknownConverter id) ↔
      id ∉ ["latin-to-cyrillic", "cyrillic-to-latin",
            "uz-latn-to-uz-cyrl", "uz-cyrl-to-uz-latn"])
    ∧ convert text "latin-to-cyrillic" = Except.ok (Generic.latinToCyrillicConvert text)
    ∧ convert text "cyrillic-to-latin" = Except.ok (Generic.cyrillicToLatinConvert text)
    ∧ convert text "uz-latn-to-uz-cyrl" = Except.ok (Uzbek.uzbekLatinToCyrillic text)
    ∧ convert text "uz-cyrl-to-uz-latn" = Except.ok (Uzbek.uzbekCyrillicToLatin text)
    ∧ convert "x" "not-a-real-id"
        = Except.error (ConvError.unknownConverter "not-a-real-id") := by
  refine ⟨?_, rfl, rfl, rfl, rfl, rfl⟩
  constructor
  · intro he hid
    have hsome : (mapGet converters id).isSome = true := by
      simp only [List.mem_cons, List.not_mem_nil, or_false] at hid
      rcases hid with rfl | rfl | rfl | rfl
      · decide
      · decide
      · decide
      · decide
    cases hmg : mapGet converters id with
    | none => rw [hmg] at hsome; cases hsome
    | some c => rw [convert, hmg] at he; cases he
  · intro hid
    have hnone : mapGet converters id = none := by
      rw [mapGet, List.find?_eq_none.mpr, Option.map_none']
      intro p hp
      simp only [decide_eq_true_eq]
      intro hpid
      apply hid
      rw [← hpid]
      have hconv : converters =
          [("latin-to-cyrillic",
            ⟨"latin-to-cyrillic", "Latin → Cyrillic (Russian)",
              Generic.latinToCyrillicConvert⟩),
           ("cyrillic-to-latin",
            ⟨"cyrillic-to-latin", "Cyrillic → Latin (Russian)",
              Generic.cyrillicToLatinConvert⟩),
           ("uz-latn-to-uz-cyrl",
            ⟨"uz-latn-to-uz-cyrl", "Uzbek Latin → Cyrillic",
              Uzbek.uzbekLatinToCyrillic⟩),
           ("uz-cyrl-to-uz-latn",
            ⟨"uz-cyrl-to-uz-latn", "Uzbek Cyrillic → Latin",
              Uzbek.uzbekCyrillicToLatin⟩)] := rfl
      rw [hconv] at hp
      simp only [List.mem_cons, List.not_mem_nil, or_false] at hp
      rcases hp with rfl | rfl | rfl | rfl
      · exact List.mem_cons_self _ _
      · exact List.mem_cons_of_mem _ (List.mem_cons_self _ _)
      · exact List.mem_cons_of_mem _ (List.mem_cons_of_mem _ (List.mem_cons_self _ _))
      · exact List.mem_cons_of_mem _
          (List.mem_cons_of_mem _ (List.mem_cons_of_mem _ (List.mem_cons_self _ _)))
    rw [convert, hnone]

/-- C10: the Uzbek reverse index erases the soft sign: its target token
is the empty string, so "ь" (and "Ь") convert to "", every occurrence
of the soft sign at the cursor is consumed while contributing nothing
to the output (so output can be strictly shorter than input), and the
hard sign "ъ" is not erased — it maps to the apostrophe via the
canonical entry. -/
theorem c10_soft_sign_erased :
    Uzbek.uzbekCyrillicToLatin "ь" = some ""
    ∧ Uzbek.uzbekCyrillicToLatin "Ь" = some ""
    ∧ Uzbek.uzbekCyrillicToLatin "ъ" = some "'"
    ∧ mapGet Uzbek.cyrillicToLatin "ь".data = some "".data
    ∧ (∀ (rest : List Char) (fuel : Nat),
        greedyConvert Uzbek.cyrillicToLatin Uzbek.sortedCyrillicKeys
            (fuel + 1) ('ь' :: rest)
          = greedyConvert Uzbek.cyrillicToLatin Uzbek.sortedCyrillicKeys fuel rest)
    ∧ Uzbek.uzbekCyrillicToLatin "ьь" = some ""
    ∧ ("" : String).length < ("ьь" : String).length := by
  refine ⟨by decide, by decide, by decide, by decide, ?_, by decide, by decide⟩
  intro rest fuel
  have hstep :
      greedyConvert Uzbek.cyrillicToLatin Uzbek.sortedCyrillicKeys
          (fuel + 1) ('ь' :: rest)
        = (greedyConvert Uzbek.cyrillicToLatin Uzbek.sortedCyrillicKeys fuel rest).map
            (fun out => out) := rfl
  rw [hstep]
  cases greedyConvert Uzbek.cyrillicToLatin Uzbek.sortedCyrillicKeys fuel rest <;> rfl

/-- C8: the classifier returns unknown with all counts and percentages
zero when no counted letters occur; otherwise latin when Latin letters
are at least 90% of counted letters, cyrillic when Cyrillic letters
are, and mixed otherwise; in particular 9 Latin plus 1 Cyrillic counted
letters classify as latin and 89 plus 11 classify as mixed. -/
theorem c8_classifier (s : String) :
    ((analyzeScript s).totalLetters = 0 →
        analyzeScript s = ⟨ScriptType.unknown, 0, 0, 0, 0, 0⟩)
    ∧ ((analyzeScript s).totalLetters ≠ 0 →
        (analyzeScript s).type =
          (if 90 ≤ (analyzeScript s).latinPercentage then ScriptType.latin
           else if 90 ≤ (analyzeScript s).cyrillicPercentage then ScriptType.cyrillic
           else ScriptType.mixed))
    ∧ ((analyzeScript s).latinCount = 9 → (analyzeScript s).cyrillicCount = 1 →
        (analyzeScript s).type = ScriptType.latin)
    ∧ ((analyzeScript s).latinCount = 89 → (analyzeScript s).cyrillicCount = 11 →
        (analyzeScript s).type = ScriptType.mixed) := by
  rcases hfold : s.data.foldl
      (fun (acc : Nat × Nat) c =>
        if LATIN_RANGE c then (acc.1 + 1, acc.2)
        else if CYRILLIC_RANGE c then (acc.1, acc.2 + 1)
        else acc)
      (0, 0) with ⟨lc, cc⟩
  simp only [analyzeScript, hfold]
  by_cases h0 : lc + cc = 0
  · rw [if_pos h0]
    exact ⟨fun _ => rfl, fun hne => absurd rfl hne,
      fun h9 _ => absurd h9 (by decide), fun h89 _ => absurd h89 (by decide)⟩
  · rw [if_neg h0]
    dsimp only
    refine ⟨fun h => absurd h h0, fun _ => ?_, fun h9 h1 => ?_, fun h89 h11 => ?_⟩
    · by_cases hL : (90 : ℚ) ≤ ((lc : ℚ) / ((lc + cc : Nat) : ℚ)) * 100
      · rw [if_pos hL, if_pos hL]
      · rw [if_neg hL, if_neg hL]
        by_cases hC : (90 : ℚ) ≤ ((cc : ℚ) / ((lc + cc : Nat) : ℚ)) * 100
        · rw [if_pos hC, if_pos hC]
        · rw [if_neg hC, if_neg hC, if_pos (Nat.pos_of_ne_zero h0)]
    · subst h9; subst h1
      rw [if_pos (by norm_num)]
    · subst h89; subst h11
      rw [if_neg (by norm_num), if_neg (by norm_num),
        if_pos (by norm_num)]

/-- Witness for C8 at concrete inputs: the empty string analyses as
unknown with all fields zero, a 9-Latin-1-Cyrillic string classifies as
latin, and an 89-Latin-11-Cyrillic string classifies as mixed. -/
theorem c8_classifier_witness :
    analyzeScript "" = ⟨ScriptType.unknown, 0, 0, 0, 0, 0⟩
    ∧ (analyzeScript "abcdefghiб").type = ScriptType.latin
    ∧ (analyzeScript
        (String.mk (List.replicate 89 'a' ++ List.replicate 11 'б'))).type
        = ScriptType.mixed :=
  ⟨(c8_classifier "").1 (by decide),
   (c8_classifier "abcdefghiб").2.2.1 (by decide) (by decide),
   (c8_classifier (String.mk (List.replicate 89 'a' ++ List.replicate 11 'б'))).2.2.2
     (by decide) (by decide)⟩
